import Mathlib

set_option maxHeartbeats 1000000

namespace PhotoClassifier

/-!
Shallow embedding of the photo-classifier pipeline
(src/photo_classifier_optimized.py and src/photo_classifier_multithreaded.py).

External effects (filesystem stat/read/move/remove, EXIF and media-property
readers, wall clock) are modelled as per-file oracle data carried in a
`FileCtx`; the SQLite table is modelled as a list of rows; the MD5 routine is
modelled by its result together with an invocation count, so that claims about
"the fingerprint is never computed" are expressible.

Layout: all definitions first, then all theorems.
-/

/-! ### Definitions -/

/-- Reference decimal printer: digits of `n` in base 10, most significant
first.  Mirrors the mathematical content of `Nat.toDigits 10`; rename_move
builds its numeric collision suffix from a counter with Python string
interpolation, embedded below via `Nat.repr`. -/
def decimalChars (n : Nat) : List Char :=
  if n < 10 then [Nat.digitChar n]
  else decimalChars (n / 10) ++ [Nat.digitChar (n % 10)]
termination_by n
decreasing_by
  exact Nat.div_lt_self (by omega) (by omega)

/-- A row of the optimized index table: MD5 (UNIQUE), FILE_SIZE, FILE_TYPE,
CREATED_DATE.  ID and PROCESSED_DATE, which no claim mentions, are omitted;
the UNIQUE constraint on MD5 is enforced in `insert_record` below. -/
structure Record where
  MD5 : String
  FILE_SIZE : Nat
  FILE_TYPE : String
  CREATED_DATE : String
deriving DecidableEq

/-- FileProcessResult dataclass of photo_classifier_optimized.py. -/
structure FileProcessResult where
  md5 : String
  file_size : Nat
  file_type : String
  created_date : String
  original_path : String
  new_path : String
  success : Bool
  error_message : Option String
deriving DecidableEq

/-- FileProcessResult dataclass of photo_classifier_multithreaded.py
(different field order and no file_type). -/
structure FileProcessResultMT where
  md5 : String
  original_path : String
  new_path : String
  file_size : Nat
  created_date : String
  success : Bool
  error_message : Option String
deriving DecidableEq

/-- A row of the multithreaded variant's table. -/
structure RecordMT where
  MD5 : String
  ORIGINAL_PATH : String
  NEW_PATH : String
  FILE_SIZE : Nat
  CREATED_DATE : String
deriving DecidableEq

/-- A (year, month, day) triple as produced by read_date (each component a
string, e.g. "2020", "03", "15"). -/
structure DateT where
  year : String
  month : String
  day : String
deriving DecidableEq

/-- The created_date string "year-month-day" interpolated throughout the
source. -/
def fmtDate (d : DateT) : String :=
  d.year ++ "-" ++ d.month ++ "-" ++ d.day

/-- Configuration values consumed by the pipeline. -/
structure Config where
  photo_output : String
  video_output : String
  image_output : String
  min_file_size : Nat
deriving DecidableEq

/-- Per-file oracle: everything the worker observes about one candidate file
and its environment.  Metadata readers, stat, clock, and the success of the
remove/move filesystem calls are inputs; `fs` is the set of destination paths
that exist on disk when the worker resolves its target name. -/
structure FileCtx where
  path : String
  ext : String
  fileSize : Nat
  isImage : Bool
  isVideo : Bool
  containsExif : Bool
  photoDate : Option DateT
  videoDate : Option DateT
  mtimeDate : Option DateT
  nowDate : DateT
  md5Res : Option String
  removeOk : Bool
  moveOk : Bool
  fs : List String
deriving DecidableEq

/-- is_photo: an image that contains a recognized EXIF key. -/
def is_photo (c : FileCtx) : Bool :=
  c.isImage && c.containsExif

/-- The metadata tier of read_date: photo EXIF date for photos, encoded-date
property for videos, nothing otherwise. -/
def metaDate (c : FileCtx) : Option DateT :=
  if is_photo c then c.photoDate
  else if c.isVideo then c.videoDate
  else none

/-- read_date: embedded metadata first, then filesystem modification time,
then the current date.  Total by construction. -/
def read_date (c : FileCtx) : DateT :=
  match metaDate c with
  | some d => d
  | none =>
    match c.mtimeDate with
    | some d => d
    | none => c.nowDate

/-- os.path.join on the Windows host the source targets. -/
def pathJoin (a b : String) : String :=
  a ++ "\\" ++ b

/-- Destination directory {output_root}/{year}/{month}/{day}. -/
def targetDir (output_dir : String) (d : DateT) : String :=
  pathJoin (pathJoin (pathJoin output_dir d.year) d.month) d.day

/-- Shared filename stem "{year}-{month}-{day}-{md5}". -/
def fileStem (d : DateT) (md5 : String) : String :=
  d.year ++ "-" ++ d.month ++ "-" ++ d.day ++ "-" ++ md5

/-- new_name = "{year}-{month}-{day}-{md5}{ext}". -/
def baseFileName (d : DateT) (md5 ext : String) : String :=
  fileStem d md5 ++ ext

/-- Conflict name "{year}-{month}-{day}-{md5}_{counter}{ext}". -/
def suffixedFileName (d : DateT) (md5 : String) (counter : Nat) (ext : String) : String :=
  fileStem d md5 ++ "_" ++ Nat.repr counter ++ ext

/-- The sequence of candidate file names tried by rename_move: the base name,
then the counter-suffixed names. -/
def mkName (d : DateT) (md5 ext : String) : Nat → String
  | 0 => baseFileName d md5 ext
  | Nat.succ n => suffixedFileName d md5 (Nat.succ n) ext

/-- The while-loop of rename_move: keep the current candidate name if its full
path does not exist, otherwise try the next counter.  The fuel argument makes
the recursion structural; `fs.length + 1` probes always suffice because the
candidate paths are pairwise distinct. -/
def conflict_loop (fs : List String) (dir : String) (mk : Nat → String) :
    Nat → String → Nat → String
  | 0, name, _ => name
  | fuel + 1, name, counter =>
    if pathJoin dir name ∈ fs then conflict_loop fs dir mk fuel (mk counter) (counter + 1)
    else name

/-- The file name rename_move settles on (its returned basename). -/
def resolve_name (fs : List String) (dir : String) (mk : Nat → String) : String :=
  conflict_loop fs dir mk (fs.length + 1) (mk 0) 1

/-- check_file_exists: fast pre-check; true iff some row matches the
(FILE_SIZE, CREATED_DATE) pair. -/
def check_file_exists (tbl : List Record) (file_size : Nat) (created_date : String) : Bool :=
  tbl.any fun r => r.FILE_SIZE == file_size && r.CREATED_DATE == created_date

/-- check_duplicate: exact-fingerprint lookup. -/
def check_duplicate (tbl : List Record) (md5 : String) : Bool :=
  tbl.any fun r => r.MD5 == md5

/-- One INSERT against the MD5 UNIQUE constraint: a conflicting row raises
IntegrityError (signalled by the `false` flag) and leaves the table unchanged;
otherwise the row is appended. -/
def insert_record (tbl : List Record) (r : Record) : List Record × Bool :=
  if tbl.any fun x => x.MD5 == r.MD5 then (tbl, false)
  else (tbl ++ [r], true)

/-- The per-result body of batch_add_records: only successful results are
inserted; an IntegrityError is swallowed (continue) and does not bump
added_count. -/
def batch_insert_step (acc : List Record × Nat) (result : FileProcessResult) :
    List Record × Nat :=
  if result.success then
    match insert_record acc.1
      ⟨result.md5, result.file_size, result.file_type, result.created_date⟩ with
    | (t, true) => (t, acc.2 + 1)
    | (t, false) => (t, acc.2)
  else acc

/-- The record a successful result would insert. -/
def toRecord (result : FileProcessResult) : Record :=
  ⟨result.md5, result.file_size, result.file_type, result.created_date⟩

/-- batch_add_records: serialized batch write; returns the new table and
added_count. -/
def batch_add_records (tbl : List Record) (results : List FileProcessResult) :
    List Record × Nat :=
  results.foldl batch_insert_step (tbl, 0)

/-- A sequence of batch commits, as issued by process_folder_multithreaded. -/
def apply_batches (tbl : List Record) (batches : List (List FileProcessResult)) :
    List Record :=
  batches.foldl (fun t b => (batch_add_records t b).1) tbl

/-- The index invariant: fingerprints are pairwise distinct. -/
def MD5Unique (tbl : List Record) : Prop :=
  (tbl.map Record.MD5).Nodup

/-- Optimized variant: ThreadSafeDatabase._setup_database wraps its body in
try/except sqlite3.Error and only prints on failure, so construction always
completes; the result models (outcome, log lines). -/
def ThreadSafeDatabase.setup_database (connectRes : Except String Unit) :
    Except String (List String) :=
  match connectRes with
  | Except.ok _ => Except.ok []
  | Except.error e => Except.ok ["数据库设置失败: " ++ e]

/-- Multithreaded variant: DatabaseManager._setup_database has no handler
around sqlite3.connect, so an open failure propagates out of the
constructor. -/
def DatabaseManager.setup_database (connectRes : Except String Unit) :
    Except String Unit :=
  connectRes

/-- check_duplicate of the multithreaded variant: returns the ORIGINAL_PATH of
the matching row, if any. -/
def check_duplicate_mt (tbl : List RecordMT) (md5 : String) : Option String :=
  (tbl.find? fun r => r.MD5 == md5).map RecordMT.ORIGINAL_PATH

/-- Substring probe on char lists: needle is a leading segment of hay. -/
def charListHasPre : List Char → List Char → Bool
  | [], _ => true
  | _ :: _, [] => false
  | a :: as, b :: bs => a == b && charListHasPre as bs

/-- Substring probe on char lists: needle occurs somewhere in hay. -/
def charListHasSub (needle : List Char) : List Char → Bool
  | [] => charListHasPre needle []
  | b :: bs => charListHasPre needle (b :: bs) || charListHasSub needle bs

/-- Python's substring containment test on strings. -/
def strContains (hay needle : String) : Bool :=
  charListHasSub needle.data hay.data

/-- Python str.lower, character by character. -/
def strLower (s : String) : String :=
  ⟨s.data.map Char.toLower⟩

/-- Python str.endswith: the candidate suffix read backwards must be a leading
segment of the string read backwards. -/
def strEndsWith (s post : String) : Bool :=
  charListHasPre post.data.reverse s.data.reverse

/-- is_video: raw lowercase suffix match against the configured video
extension list. -/
def is_video (video_extensions : List String) (file_path : String) : Bool :=
  video_extensions.any fun ext => strEndsWith (strLower file_path) ext

/-- is_image: raw lowercase suffix match against the configured image
extension list. -/
def is_image (image_extensions : List String) (file_path : String) : Bool :=
  image_extensions.any fun ext => strEndsWith (strLower file_path) ext

/-- is_valid_file_size: file_size >= min_file_size. -/
def is_valid_file_size (cfg : Config) (c : FileCtx) : Bool :=
  decide (cfg.min_file_size ≤ c.fileSize)

/-- The output root rename_move picks: photo output for images with EXIF,
image output for other images, video output for videos; none models the
ValueError raised for unsupported types. -/
def output_dir_for (cfg : Config) (c : FileCtx) : Option String :=
  if c.isImage then some (if is_photo c then cfg.photo_output else cfg.image_output)
  else if c.isVideo then some cfg.video_output
  else none

/-- rename_move of the optimized variant: returns (basename, moved-to path) on
success; none models a raised exception (unsupported type, or shutil.move
failing). -/
def rename_move (cfg : Config) (c : FileCtx) (d : DateT) (md5 : String) :
    Option (String × String) :=
  match output_dir_for cfg c with
  | none => none
  | some output_dir =>
    let dir := targetDir output_dir d
    let name := resolve_name c.fs dir (mkName d md5 c.ext)
    if c.moveOk then some (name, pathJoin dir name) else none

/-- rename_move of the multithreaded variant: returns the full target path. -/
def rename_move_mt (cfg : Config) (c : FileCtx) (d : DateT) (md5 : String) :
    Option String :=
  (rename_move cfg c d md5).map Prod.snd

/-- Which shared counter one worker invocation increments. -/
inductive CounterKind
  | processed
  | duplicate
  | skipped
  | error
deriving DecidableEq

/-- Observable outcome of one process_file_single call: the returned result
(None models the early returns), the number of get_md5 invocations, the
counter incremented, whether the source file was deleted, and where the file
was moved (if it was). -/
structure ProcOut where
  result : Option FileProcessResult
  md5Calls : Nat
  counterInc : Option CounterKind
  sourceRemoved : Bool
  movedTo : Option String
deriving DecidableEq

/-- process_file_single of the optimized variant: size filter, type filter,
fast pre-check, MD5, exact-duplicate check with source deletion, then
placement; any exception yields an error result. -/
def process_file_single (cfg : Config) (tbl : List Record) (c : FileCtx) : ProcOut :=
  if !(is_valid_file_size cfg c) then ⟨none, 0, none, false, none⟩
  else if !(c.isImage || c.isVideo) then ⟨none, 0, none, false, none⟩
  else
    let d := read_date c
    let created_date := fmtDate d
    if check_file_exists tbl c.fileSize created_date then
      ⟨none, 0, some CounterKind.skipped, false, none⟩
    else
      match c.md5Res with
      | none =>
        ⟨some ⟨"", 0, "", "", c.path, "", false, some "md5 read failed"⟩,
          1, some CounterKind.error, false, none⟩
      | some md5 =>
        if check_duplicate tbl md5 then
          if c.removeOk then
            ⟨none, 1, some CounterKind.duplicate, true, none⟩
          else
            ⟨none, 1, none, false, none⟩
        else
          let file_type :=
            if is_photo c then "photo"
            else if c.isVideo then "video"
            else "image"
          match rename_move cfg c d md5 with
          | some pr =>
            let outRoot :=
              if file_type == "photo" then cfg.photo_output
              else if file_type == "video" then cfg.video_output
              else cfg.image_output
            let new_path := pathJoin (targetDir outRoot d) pr.1
            ⟨some ⟨md5, c.fileSize, file_type, created_date, c.path, new_path, true, none⟩,
              1, some CounterKind.processed, false, some pr.2⟩
          | none =>
            ⟨some ⟨"", 0, "", "", c.path, "", false, some "move failed"⟩,
              1, some CounterKind.error, false, none⟩

/-- collect_files of the optimized variant: candidate files that pass the type
and size filters; files failing either are silently dropped, with no counter
touched. -/
def collect_files (cfg : Config) (files : List FileCtx) : List FileCtx :=
  files.filter fun c => (c.isImage || c.isVideo) && is_valid_file_size cfg c

/-- process_single_file of the multithreaded variant: every outcome is encoded
into a FileProcessResultMT whose error_message the coordinator later pattern
matches. -/
def process_single_file_mt (cfg : Config) (tbl : List RecordMT) (c : FileCtx) :
    FileProcessResultMT :=
  if !(is_valid_file_size cfg c) then
    ⟨"", c.path, "", 0, "", false, some "File too small"⟩
  else if !(c.isImage || c.isVideo) then
    ⟨"", c.path, "", 0, "", false, some "Unsupported file type"⟩
  else
    match c.md5Res with
    | none => ⟨"", c.path, "", 0, "", false, some "md5 read failed"⟩
    | some md5 =>
      match check_duplicate_mt tbl md5 with
      | some existing =>
        if c.removeOk then
          ⟨md5, c.path, "", c.fileSize, "", false,
            some ("Duplicate file (original: " ++ existing ++ ")")⟩
        else
          ⟨md5, c.path, "", c.fileSize, "", false,
            some "Failed to remove duplicate"⟩
      | none =>
        let d := read_date c
        let created_date := fmtDate d
        match rename_move_mt cfg c d md5 with
        | some new_path => ⟨md5, c.path, new_path, c.fileSize, created_date, true, none⟩
        | none => ⟨"", c.path, "", 0, "", false, some "move failed"⟩

/-- The result classification the multithreaded coordinator performs while
draining futures: success results count as processed (and join the commit
batch); failures are classified by substrings of the error message. -/
def classify_result (r : FileProcessResultMT) : CounterKind :=
  if r.success then CounterKind.processed
  else if strContains (r.error_message.getD "") "Duplicate" then CounterKind.duplicate
  else if strContains (r.error_message.getD "") "too small"
      || strContains (r.error_message.getD "") "Unsupported" then CounterKind.skipped
  else CounterKind.error

/-! ### Concrete sample data used by witnesses and counterexamples -/

/-- Sample configuration: 1024-byte minimum size, distinct output roots. -/
def cfgW : Config := ⟨"P", "V", "I", 1024⟩

/-- Sample date 2020-03-15. -/
def dateW : DateT := ⟨"2020", "03", "15"⟩

/-- Sample candidate: a 2048-byte image without EXIF, date from mtime,
hash "aabbcc", all filesystem operations succeeding, empty destination. -/
def ctx0 : FileCtx :=
  { path := "in\\a.jpg", ext := ".jpg", fileSize := 2048,
    isImage := true, isVideo := false, containsExif := false,
    photoDate := none, videoDate := none,
    mtimeDate := some ⟨"2020", "03", "15"⟩, nowDate := ⟨"2021", "01", "01"⟩,
    md5Res := some "aabbcc", removeOk := true, moveOk := true, fs := [] }

/-- Sample candidate below the 1024-byte minimum. -/
def ctxSmall : FileCtx := { ctx0 with fileSize := 500 }

/-- A table row whose (size, date) matches ctx0 but whose hash differs. -/
def tblPre : List Record := [⟨"zzzz", 2048, "image", "2020-03-15"⟩]

/-- A table row with ctx0's hash but different (size, date). -/
def tblDup : List Record := [⟨"aabbcc", 999, "image", "2019-01-01"⟩]

/-- The result process_file_single produces for ctx0 over an empty table. -/
def rSucc : FileProcessResult :=
  ⟨"aabbcc", 2048, "image", "2020-03-15", "in\\a.jpg",
    "I\\2020\\03\\15\\2020-03-15-aabbcc.jpg", true, none⟩

/-- A successful result with ctx0's hash but different metadata (a racing
worker that fingerprinted an identical file). -/
def rDup : FileProcessResult :=
  ⟨"aabbcc", 777, "video", "2021-05-05", "in\\d.mp4", "V\\y", true, none⟩

/-- A successful result with a fresh hash. -/
def rSucc2 : FileProcessResult :=
  ⟨"ddeeff", 512, "video", "2020-03-15", "in\\b.mp4", "V\\x", true, none⟩

/-- A failed result. -/
def rFail : FileProcessResult :=
  ⟨"", 0, "", "", "in\\c.jpg", "", false, some "err"⟩

/-- A one-row table holding rSucc's record. -/
def tblW2 : List Record := [toRecord rSucc]

/-- A destination directory whose base candidate name is already occupied. -/
def fsW5 : List String := [pathJoin "D" (baseFileName dateW "aa" ".jpg")]

/-! ### Theorems: decimal printer -/

theorem decimalChars_lt (n : Nat) (h : n < 10) : decimalChars n = [Nat.digitChar n] := by
  rw [decimalChars]
  simp [h]

theorem decimalChars_ge (n : Nat) (h : ¬ n < 10) :
    decimalChars n = decimalChars (n / 10) ++ [Nat.digitChar (n % 10)] := by
  conv_lhs => rw [decimalChars]
  simp [h]

theorem decimalChars_ne_nil (n : Nat) : decimalChars n ≠ [] := by
  rw [decimalChars]
  split <;> simp

theorem digitChar_injOn :
    ∀ a, a < 10 → ∀ b, b < 10 → Nat.digitChar a = Nat.digitChar b → a = b := by
  decide

theorem decimalChars_injective :
    ∀ m n : Nat, decimalChars m = decimalChars n → m = n := by
  intro m
  induction m using Nat.strong_induction_on with
  | _ m ih =>
    intro n h
    by_cases hm : m < 10 <;> by_cases hn : n < 10
    · rw [decimalChars_lt m hm, decimalChars_lt n hn] at h
      simp only [List.cons.injEq, and_true] at h
      exact digitChar_injOn m hm n hn h
    · rw [decimalChars_lt m hm, decimalChars_ge n hn] at h
      have hlen := congrArg List.length h
      simp only [List.length_append, List.length_cons, List.length_nil] at hlen
      have h0 : (decimalChars (n / 10)).length = 0 := by omega
      exact absurd (List.length_eq_zero.mp h0) (decimalChars_ne_nil (n / 10))
    · rw [decimalChars_ge m hm, decimalChars_lt n hn] at h
      have hlen := congrArg List.length h
      simp only [List.length_append, List.length_cons, List.length_nil] at hlen
      have h0 : (decimalChars (m / 10)).length = 0 := by omega
      exact absurd (List.length_eq_zero.mp h0) (decimalChars_ne_nil (m / 10))
    · rw [decimalChars_ge m hm, decimalChars_ge n hn] at h
      have hrev := congrArg List.reverse h
      simp only [List.reverse_append, List.reverse_cons, List.reverse_nil,
        List.nil_append, List.singleton_append, List.cons.injEq] at hrev
      obtain ⟨hdig, htail⟩ := hrev
      have hmod : m % 10 = n % 10 :=
        digitChar_injOn (m % 10) (Nat.mod_lt _ (by omega)) (n % 10)
          (Nat.mod_lt _ (by omega)) hdig
      have htl : decimalChars (m / 10) = decimalChars (n / 10) :=
        List.reverse_injective htail
      have hdiv : m / 10 = n / 10 :=
        ih (m / 10) (Nat.div_lt_self (by omega) (by omega)) (n / 10) htl
      have hm10 := Nat.div_add_mod m 10
      have hn10 := Nat.div_add_mod n 10
      omega

theorem toDigitsCore_append (b : Nat) :
    ∀ (fuel n : Nat) (ds : List Char),
      Nat.toDigitsCore b fuel n ds = Nat.toDigitsCore b fuel n [] ++ ds := by
  intro fuel
  induction fuel with
  | zero => intro n ds; simp [Nat.toDigitsCore]
  | succ f ih =>
    intro n ds
    simp only [Nat.toDigitsCore]
    by_cases h : n / b = 0
    · simp [h]
    · simp only [h, if_false]
      rw [ih (n / b) (Nat.digitChar (n % b) :: ds),
        ih (n / b) (Nat.digitChar (n % b) :: [])]
      simp

theorem toDigitsCore_eq_decimalChars :
    ∀ (n fuel : Nat), n < fuel → Nat.toDigitsCore 10 fuel n [] = decimalChars n := by
  intro n
  induction n using Nat.strong_induction_on with
  | _ n ih =>
    intro fuel hf
    match fuel, hf with
    | f + 1, hf =>
      simp only [Nat.toDigitsCore]
      by_cases h : n / 10 = 0
      · have hn : n < 10 := by
          have := (Nat.div_eq_zero_iff (by omega : 0 < 10)).mp h
          omega
        rw [decimalChars_lt n hn]
        simp [h, Nat.mod_eq_of_lt hn]
      · have hn : ¬ n < 10 := by
          intro hlt
          exact h ((Nat.div_eq_zero_iff (by omega : 0 < 10)).mpr hlt)
        simp only [h, if_false]
        rw [toDigitsCore_append]
        have hdivlt : n / 10 < n := Nat.div_lt_self (by omega) (by omega)
        rw [ih (n / 10) hdivlt f (by omega)]
        rw [decimalChars_ge n hn]

theorem natRepr_eq_decimalChars (n : Nat) :
    Nat.repr n = (decimalChars n).asString := by
  show (Nat.toDigits 10 n).asString = (decimalChars n).asString
  rw [Nat.toDigits, toDigitsCore_eq_decimalChars n (n + 1) (by omega)]

theorem natRepr_injective {m n : Nat} (h : Nat.repr m = Nat.repr n) : m = n := by
  rw [natRepr_eq_decimalChars, natRepr_eq_decimalChars] at h
  have hdata := congrArg String.data h
  simp only [List.asString] at hdata
  exact decimalChars_injective m n hdata

/-! ### Theorems: string helpers -/

theorem str_append_left_cancel {a x y : String} (h : a ++ x = a ++ y) : x = y := by
  apply String.ext
  have h2 := congrArg String.data h
  simp only [String.data_append] at h2
  exact List.append_cancel_left h2

theorem str_append_right_cancel {a b x : String} (h : a ++ x = b ++ x) : a = b := by
  apply String.ext
  have h2 := congrArg String.data h
  simp only [String.data_append] at h2
  exact List.append_cancel_right h2

theorem str_length_append (a b : String) : (a ++ b).length = a.length + b.length := by
  show (a ++ b).data.length = a.data.length + b.data.length
  simp [String.data_append]

/-! ### Theorems: candidate-name injectivity and the conflict loop -/

theorem mkName_injective (d : DateT) (md5 ext : String) :
    ∀ a b, mkName d md5 ext a = mkName d md5 ext b → a = b := by
  have hbase : ∀ n : Nat, baseFileName d md5 ext ≠ suffixedFileName d md5 (n + 1) ext := by
    intro n h
    have h2 : fileStem d md5 ++ ext
        = (fileStem d md5 ++ "_" ++ Nat.repr (n + 1)) ++ ext := h
    have h3 : fileStem d md5 = fileStem d md5 ++ "_" ++ Nat.repr (n + 1) :=
      str_append_right_cancel h2
    have h4 := congrArg String.length h3
    rw [str_length_append, str_length_append] at h4
    have h5 : ("_" : String).length = 1 := rfl
    omega
  intro a b h
  match a, b with
  | 0, 0 => rfl
  | 0, Nat.succ n => exact absurd h (hbase n)
  | Nat.succ n, 0 => exact absurd h.symm (hbase n)
  | Nat.succ a, Nat.succ b =>
    have h2 : ((fileStem d md5 ++ "_") ++ Nat.repr (a + 1)) ++ ext
        = ((fileStem d md5 ++ "_") ++ Nat.repr (b + 1)) ++ ext := h
    have h3 := str_append_left_cancel (str_append_right_cancel h2)
    have := natRepr_injective h3
    omega

theorem pathJoin_injective (dir : String) {x y : String}
    (h : pathJoin dir x = pathJoin dir y) : x = y :=
  str_append_left_cancel (a := dir ++ "\\") h

theorem exists_unoccupied (fs : List String) (c : Nat → String)
    (hinj : ∀ a b, c a = c b → a = b) :
    ∃ j, j ≤ fs.length ∧ c j ∉ fs := by
  by_contra hcon
  push_neg at hcon
  have hnd : ((List.range (fs.length + 1)).map c).Nodup :=
    List.Nodup.map (fun a b hab => hinj a b hab) (List.nodup_range (fs.length + 1))
  have hsub : ((List.range (fs.length + 1)).map c).toFinset ⊆ fs.toFinset := by
    intro x hx
    rw [List.mem_toFinset] at hx
    rcases List.mem_map.mp hx with ⟨j, hj, rfl⟩
    rw [List.mem_range] at hj
    exact List.mem_toFinset.mpr (hcon j (by omega))
  have h1 : ((List.range (fs.length + 1)).map c).toFinset.card = fs.length + 1 := by
    rw [List.toFinset_card_of_nodup hnd]
    simp
  have h2 := Finset.card_le_card hsub
  have h3 := fs.toFinset_card_le
  omega

theorem conflict_loop_spec (fs : List String) (dir : String) (mk : Nat → String) :
    ∀ (fuel i : Nat),
      (∃ j, i ≤ j ∧ j < i + fuel ∧ pathJoin dir (mk j) ∉ fs) →
      ∃ j, i ≤ j ∧ pathJoin dir (mk j) ∉ fs ∧
        conflict_loop fs dir mk fuel (mk i) (i + 1) = mk j ∧
        ∀ k, i ≤ k → k < j → pathJoin dir (mk k) ∈ fs := by
  intro fuel
  induction fuel with
  | zero =>
    intro i hex
    rcases hex with ⟨j, h1, h2, _⟩
    omega
  | succ f ih =>
    intro i hex
    by_cases hi : pathJoin dir (mk i) ∈ fs
    · have hex2 : ∃ j, i + 1 ≤ j ∧ j < (i + 1) + f ∧ pathJoin dir (mk j) ∉ fs := by
        rcases hex with ⟨j, hj1, hj2, hj3⟩
        have hne : j ≠ i := by
          intro hji
          exact hj3 (hji ▸ hi)
        exact ⟨j, by omega, by omega, hj3⟩
      rcases ih (i + 1) hex2 with ⟨j, hj1, hj2, hj3, hj4⟩
      refine ⟨j, by omega, hj2, ?_, ?_⟩
      · simp only [conflict_loop, hi, if_true]
        exact hj3
      · intro k hk1 hk2
        by_cases hk : k = i
        · exact hk ▸ hi
        · exact hj4 k (by omega) hk2
    · refine ⟨i, Nat.le_refl i, hi, ?_, ?_⟩
      · simp [conflict_loop, hi]
      · intro k hk1 hk2
        omega

theorem resolve_name_spec (fs : List String) (dir : String) (d : DateT)
    (md5 ext : String) :
    ∃ j, pathJoin dir (mkName d md5 ext j) ∉ fs ∧
      resolve_name fs dir (mkName d md5 ext) = mkName d md5 ext j ∧
      ∀ k, k < j → pathJoin dir (mkName d md5 ext k) ∈ fs := by
  have hinj : ∀ a b,
      pathJoin dir (mkName d md5 ext a) = pathJoin dir (mkName d md5 ext b) → a = b :=
    fun a b h => mkName_injective d md5 ext a b (pathJoin_injective dir h)
  rcases exists_unoccupied fs (fun j => pathJoin dir (mkName d md5 ext j)) hinj with
    ⟨j, hj1, hj2⟩
  rcases conflict_loop_spec fs dir (mkName d md5 ext) (fs.length + 1) 0
      ⟨j, by omega, by omega, hj2⟩ with ⟨j2, _, hj2b, hj2c, hj2d⟩
  exact ⟨j2, hj2b, hj2c, fun k hk => hj2d k (by omega) hk⟩

/-! ### Theorems: the batch commit fold -/

theorem batch_step_eq_insert (acc : List Record × Nat) (r : FileProcessResult)
    (hs : r.success = true) (hdup : ¬(acc.1.any fun x => x.MD5 == r.md5) = true) :
    batch_insert_step acc r = (acc.1 ++ [toRecord r], acc.2 + 1) := by
  simp [batch_insert_step, insert_record, hs, hdup, toRecord]

theorem batch_step_eq_conflict (acc : List Record × Nat) (r : FileProcessResult)
    (hs : r.success = true) (hdup : (acc.1.any fun x => x.MD5 == r.md5) = true) :
    batch_insert_step acc r = (acc.1, acc.2) := by
  simp [batch_insert_step, insert_record, hs, hdup]

theorem batch_step_eq_skip (acc : List Record × Nat) (r : FileProcessResult)
    (hs : ¬ r.success = true) :
    batch_insert_step acc r = acc := by
  simp [batch_insert_step, hs]

theorem batch_step_extends (acc : List Record × Nat) (r : FileProcessResult) :
    ∃ t, (batch_insert_step acc r).1 = acc.1 ++ t := by
  by_cases hs : r.success
  · by_cases hdup : acc.1.any fun x => x.MD5 == r.md5
    · exact ⟨[], by simp [batch_step_eq_conflict acc r hs hdup]⟩
    · exact ⟨[toRecord r], by simp [batch_step_eq_insert acc r hs hdup]⟩
  · exact ⟨[], by simp [batch_step_eq_skip acc r hs]⟩

theorem batch_fold_extends :
    ∀ (results : List FileProcessResult) (acc : List Record × Nat),
      ∃ t, (results.foldl batch_insert_step acc).1 = acc.1 ++ t := by
  intro results
  induction results with
  | nil => exact fun acc => ⟨[], by simp⟩
  | cons r rs ih =>
    intro acc
    rcases batch_step_extends acc r with ⟨t1, h1⟩
    rcases ih (batch_insert_step acc r) with ⟨t2, h2⟩
    exact ⟨t1 ++ t2, by simp [List.foldl_cons, h2, h1]⟩

theorem batch_step_count (acc : List Record × Nat) (r : FileProcessResult) :
    (batch_insert_step acc r).2 + acc.1.length = acc.2 + (batch_insert_step acc r).1.length := by
  by_cases hs : r.success
  · by_cases hdup : acc.1.any fun x => x.MD5 == r.md5
    · simp [batch_step_eq_conflict acc r hs hdup]
    · simp [batch_step_eq_insert acc r hs hdup]
      omega
  · simp [batch_step_eq_skip acc r hs]

theorem batch_fold_count :
    ∀ (results : List FileProcessResult) (acc : List Record × Nat),
      (results.foldl batch_insert_step acc).2 + acc.1.length
        = acc.2 + (results.foldl batch_insert_step acc).1.length := by
  intro results
  induction results with
  | nil => intro acc; simp
  | cons r rs ih =>
    intro acc
    have h1 := batch_step_count acc r
    have h2 := ih (batch_insert_step acc r)
    simp only [List.foldl_cons] at *
    omega

theorem batch_step_mem_md5 (acc : List Record × Nat) (r : FileProcessResult)
    (hs : r.success = true) :
    r.md5 ∈ (batch_insert_step acc r).1.map Record.MD5 := by
  by_cases hdup : acc.1.any fun x => x.MD5 == r.md5
  · rw [batch_step_eq_conflict acc r hs hdup]
    rcases List.any_eq_true.mp hdup with ⟨x, hx, hxeq⟩
    rw [beq_iff_eq] at hxeq
    exact List.mem_map.mpr ⟨x, hx, hxeq⟩
  · rw [batch_step_eq_insert acc r hs hdup]
    simp [toRecord]

theorem batch_fold_mem_md5 :
    ∀ (results : List FileProcessResult) (acc : List Record × Nat)
      (r : FileProcessResult), r ∈ results → r.success = true →
      r.md5 ∈ (results.foldl batch_insert_step acc).1.map Record.MD5 := by
  intro results
  induction results with
  | nil => intro acc r hr; exact absurd hr (List.not_mem_nil r)
  | cons q rs ih =>
    intro acc r hr hs
    rcases List.mem_cons.mp hr with hr | hr
    · subst hr
      rcases batch_fold_extends rs (batch_insert_step acc r) with ⟨t, ht⟩
      have hmem := batch_step_mem_md5 acc r hs
      simp only [List.foldl_cons, ht, List.map_append]
      exact List.mem_append_left _ hmem
    · simpa using ih (batch_insert_step acc q) r hr hs

theorem batch_step_nodup (acc : List Record × Nat) (r : FileProcessResult)
    (h : (acc.1.map Record.MD5).Nodup) :
    ((batch_insert_step acc r).1.map Record.MD5).Nodup := by
  by_cases hs : r.success
  · by_cases hdup : acc.1.any fun x => x.MD5 == r.md5
    · simpa [batch_step_eq_conflict acc r hs hdup] using h
    · rw [batch_step_eq_insert acc r hs hdup]
      simp only [List.map_append, List.map_cons, List.map_nil]
      rw [List.nodup_append]
      refine ⟨h, List.nodup_singleton _, ?_⟩
      intro a ha hb
      simp only [toRecord, List.mem_singleton] at hb
      rcases List.mem_map.mp ha with ⟨x, hx, hxeq⟩
      have hne : ¬ (x.MD5 == r.md5) = true := by
        intro hc
        exact hdup (List.any_eq_true.mpr ⟨x, hx, hc⟩)
      rw [beq_iff_eq] at hne
      exact hne (hxeq.trans hb)
  · simpa [batch_step_eq_skip acc r hs] using h

theorem batch_fold_nodup :
    ∀ (results : List FileProcessResult) (acc : List Record × Nat),
      (acc.1.map Record.MD5).Nodup →
      ((results.foldl batch_insert_step acc).1.map Record.MD5).Nodup := by
  intro results
  induction results with
  | nil => intro acc h; simpa using h
  | cons r rs ih =>
    intro acc h
    simpa using ih (batch_insert_step acc r) (batch_step_nodup acc r h)

theorem batch_step_mem_src (acc : List Record × Nat) (r : FileProcessResult)
    (x : Record) (hx : x ∈ (batch_insert_step acc r).1) :
    x ∈ acc.1 ∨ (r.success = true ∧ x = toRecord r) := by
  by_cases hs : r.success
  · by_cases hdup : acc.1.any fun q => q.MD5 == r.md5
    · rw [batch_step_eq_conflict acc r hs hdup] at hx
      exact Or.inl hx
    · rw [batch_step_eq_insert acc r hs hdup] at hx
      simp only [List.mem_append, List.mem_singleton] at hx
      rcases hx with hx | hx
      · exact Or.inl hx
      · exact Or.inr ⟨hs, hx⟩
  · rw [batch_step_eq_skip acc r hs] at hx
    exact Or.inl hx

theorem batch_fold_mem_src :
    ∀ (results : List FileProcessResult) (acc : List Record × Nat) (x : Record),
      x ∈ (results.foldl batch_insert_step acc).1 →
      x ∈ acc.1 ∨ ∃ r, r ∈ results ∧ r.success = true ∧ x = toRecord r := by
  intro results
  induction results with
  | nil => intro acc x hx; exact Or.inl (by simpa using hx)
  | cons r rs ih =>
    intro acc x hx
    simp only [List.foldl_cons] at hx
    rcases ih (batch_insert_step acc r) x hx with hx2 | ⟨q, hq1, hq2, hq3⟩
    · rcases batch_step_mem_src acc r x hx2 with hx3 | ⟨h1, h2⟩
      · exact Or.inl hx3
      · exact Or.inr ⟨r, List.mem_cons_self r rs, h1, h2⟩
    · exact Or.inr ⟨q, List.mem_cons_of_mem r hq1, hq2, hq3⟩

theorem nodup_md5_filter_le_one (tbl : List Record)
    (h : (tbl.map Record.MD5).Nodup) (fp : String) :
    (tbl.filter fun r => r.MD5 == fp).length ≤ 1 := by
  induction tbl with
  | nil => simp
  | cons r t ih =>
    simp only [List.map_cons, List.nodup_cons] at h
    obtain ⟨hr, ht⟩ := h
    by_cases hfp : (r.MD5 == fp) = true
    · have hnone : (t.filter fun q => q.MD5 == fp) = [] := by
        rw [List.filter_eq_nil_iff]
        intro q hq hc
        rw [beq_iff_eq] at hfp hc
        exact hr (List.mem_map.mpr ⟨q, hq, hc.trans hfp.symm⟩)
      simp [List.filter_cons, hfp, hnone]
    · simp only [List.filter_cons, hfp, if_false]
      exact ih ht

theorem rename_move_moveOk {cfg : Config} {c : FileCtx} {d : DateT} {m : String}
    {pr : String × String} (h : rename_move cfg c d m = some pr) : c.moveOk = true := by
  unfold rename_move at h
  cases ho : output_dir_for cfg c with
  | none => rw [ho] at h; exact absurd h (by simp)
  | some od =>
    rw [ho] at h
    by_cases hm : c.moveOk
    · exact hm
    · simp [hm] at h

/-! ### Claim theorems -/

/-- C1: For every candidate file (passing the size and type filters) whose
(size, created_date) pair matches an already-indexed record, process_file_single
returns the skipped outcome without ever invoking the MD5 computation: the
check_file_exists pre-check runs strictly before get_md5, and a hit
short-circuits the pipeline (md5Calls = 0, no result, skipped counter). -/
theorem precheck_hit_skips_without_fingerprint (cfg : Config) (tbl : List Record)
    (c : FileCtx)
    (hsize : is_valid_file_size cfg c = true)
    (htype : (c.isImage || c.isVideo) = true)
    (hhit : ∃ rec, rec ∈ tbl ∧ rec.FILE_SIZE = c.fileSize ∧
      rec.CREATED_DATE = fmtDate (read_date c)) :
    process_file_single cfg tbl c = ⟨none, 0, some CounterKind.skipped, false, none⟩ := by
  have hex : check_file_exists tbl c.fileSize (fmtDate (read_date c)) = true := by
    rcases hhit with ⟨rec, h1, h2, h3⟩
    exact List.any_eq_true.mpr ⟨rec, h1, by simp [h2, h3]⟩
  simp [process_file_single, hsize, htype, hex]

/-- Witness for C1 at a concrete file and table. -/
theorem precheck_hit_skips_without_fingerprint_witness :
    is_valid_file_size cfgW ctx0 = true
    ∧ (ctx0.isImage || ctx0.isVideo) = true
    ∧ process_file_single cfgW tblPre ctx0 = ⟨none, 0, some CounterKind.skipped, false, none⟩ :=
  ⟨by decide, by decide,
    precheck_hit_skips_without_fingerprint cfgW tblPre ctx0 (by decide) (by decide)
      ⟨⟨"zzzz", 2048, "image", "2020-03-15"⟩, by decide⟩⟩

/-- C2: After any sequence of commit_batch calls over a table whose
fingerprints start pairwise distinct, the index still has pairwise-distinct
fingerprints, hence at most one row per fingerprint value; and an insert whose
fingerprint already exists returns normally with the table unchanged and a
zero added-count (silently treated as already processed). -/
theorem fingerprint_unique_invariant (tbl : List Record)
    (batches : List (List FileProcessResult)) (h : MD5Unique tbl) :
    MD5Unique (apply_batches tbl batches)
    ∧ (∀ fp, ((apply_batches tbl batches).filter fun r => r.MD5 == fp).length ≤ 1)
    ∧ (∀ r : FileProcessResult, r.success = true → r.md5 ∈ tbl.map Record.MD5 →
        batch_add_records tbl [r] = (tbl, 0)) := by
  have hnd : ∀ (bs : List (List FileProcessResult)) (t : List Record), MD5Unique t →
      MD5Unique (apply_batches t bs) := by
    intro bs
    induction bs with
    | nil => intro t ht; simpa [apply_batches] using ht
    | cons b bs2 ih =>
      intro t ht
      have h2 : MD5Unique (batch_add_records t b).1 := batch_fold_nodup b (t, 0) ht
      simpa [apply_batches, List.foldl_cons] using ih (batch_add_records t b).1 h2
  refine ⟨hnd batches tbl h, fun fp => nodup_md5_filter_le_one _ (hnd batches tbl h) fp, ?_⟩
  intro r hs hmem
  have hdup : (tbl.any fun x => x.MD5 == r.md5) = true := by
    rcases List.mem_map.mp hmem with ⟨x, hx, hxeq⟩
    exact List.any_eq_true.mpr ⟨x, hx, beq_iff_eq.mpr hxeq⟩
  show List.foldl batch_insert_step (tbl, 0) [r] = (tbl, 0)
  rw [List.foldl_cons, batch_step_eq_conflict (tbl, 0) r hs hdup, List.foldl_nil]

/-- Witness for C2: two racing batches carry the same fingerprint. -/
theorem fingerprint_unique_invariant_witness :
    MD5Unique tblW2
    ∧ MD5Unique (apply_batches tblW2 [[rDup], [rDup]])
    ∧ batch_add_records tblW2 [rDup] = (tblW2, 0) :=
  ⟨(by decide : (tblW2.map Record.MD5).Nodup),
    (fingerprint_unique_invariant tblW2 [[rDup], [rDup]]
      (by decide : (tblW2.map Record.MD5).Nodup)).1,
    (fingerprint_unique_invariant tblW2 [[rDup], [rDup]]
      (by decide : (tblW2.map Record.MD5).Nodup)).2.2 rDup
      (by decide) (by decide)⟩

/-- C3: commit_batch never aborts or rolls back on a per-record conflict: the
final table extends the original (nothing is lost), the returned count equals
the number of rows actually added, and every successful record of the batch
has its fingerprint present in the final table (inserted, or already
there). -/
theorem batch_conflict_skips_not_aborts (tbl : List Record)
    (results : List FileProcessResult) :
    (batch_add_records tbl results).2 + tbl.length = (batch_add_records tbl results).1.length
    ∧ (∃ t, (batch_add_records tbl results).1 = tbl ++ t)
    ∧ (∀ r, r ∈ results → r.success = true →
        r.md5 ∈ (batch_add_records tbl results).1.map Record.MD5) := by
  refine ⟨?_, batch_fold_extends results (tbl, 0),
    fun r h1 h2 => batch_fold_mem_md5 results (tbl, 0) r h1 h2⟩
  have hc := batch_fold_count results (tbl, 0)
  simpa [batch_add_records] using hc

/-- Witness for C3: a batch with an internal conflict and a failure still
commits both fresh records, returning count 2. -/
theorem batch_conflict_skips_not_aborts_witness :
    batch_add_records [] [rSucc, rDup, rSucc2, rFail]
      = ([toRecord rSucc, toRecord rSucc2], 2)
    ∧ rSucc2.md5 ∈ (batch_add_records [] [rSucc, rDup, rSucc2, rFail]).1.map Record.MD5 :=
  ⟨by decide,
    (batch_conflict_skips_not_aborts [] [rSucc, rDup, rSucc2, rFail]).2.2 rSucc2
      (by decide) (by decide)⟩

/-- C4: no record is committed for a file that was not successfully moved: a
worker result can be successful only when the move succeeded and the file was
physically placed, and batch_add_records only ever adds records stemming from
successful results. -/
theorem no_record_without_successful_move (cfg : Config) (tbl0 : List Record)
    (c : FileCtx) (tbl : List Record) (results : List FileProcessResult) :
    (∀ r, (process_file_single cfg tbl0 c).result = some r → r.success = true →
      c.moveOk = true ∧ ∃ p, (process_file_single cfg tbl0 c).movedTo = some p)
    ∧ (∀ x, x ∈ (batch_add_records tbl results).1 →
        x ∈ tbl ∨ ∃ r, r ∈ results ∧ r.success = true ∧ x = toRecord r) := by
  refine ⟨?_, fun x hx => batch_fold_mem_src results (tbl, 0) x hx⟩
  intro r hres hsucc
  by_cases h1 : is_valid_file_size cfg c = true
  · by_cases h2 : (c.isImage || c.isVideo) = true
    · by_cases h3 : check_file_exists tbl0 c.fileSize (fmtDate (read_date c)) = true
      · simp [process_file_single, h1, h2, h3] at hres
      · cases hmd5 : c.md5Res with
        | none =>
          have hEq : process_file_single cfg tbl0 c
              = ⟨some ⟨"", 0, "", "", c.path, "", false, some "md5 read failed"⟩,
                1, some CounterKind.error, false, none⟩ := by
            simp [process_file_single, h1, h2, h3, hmd5]
          rw [hEq] at hres
          have hr := Option.some.inj hres
          rw [← hr] at hsucc
          simp at hsucc
        | some m =>
          by_cases h4 : check_duplicate tbl0 m = true
          · by_cases h5 : c.removeOk = true
            · simp [process_file_single, h1, h2, h3, hmd5, h4, h5] at hres
            · simp [process_file_single, h1, h2, h3, hmd5, h4, h5] at hres
          · cases hmv : rename_move cfg c (read_date c) m with
            | none =>
              have hEq : process_file_single cfg tbl0 c
                  = ⟨some ⟨"", 0, "", "", c.path, "", false, some "move failed"⟩,
                    1, some CounterKind.error, false, none⟩ := by
                simp [process_file_single, h1, h2, h3, hmd5, h4, hmv]
              rw [hEq] at hres
              have hr := Option.some.inj hres
              rw [← hr] at hsucc
              simp at hsucc
            | some pr =>
              refine ⟨rename_move_moveOk hmv, ⟨pr.2, ?_⟩⟩
              simp [process_file_single, h1, h2, h3, hmd5, h4, hmv]
    · simp [process_file_single, h1, h2] at hres
  · simp [process_file_single, h1] at hres

/-- Witness for C4 at a concrete fully-successful worker run and a singleton
batch. -/
theorem no_record_without_successful_move_witness :
    (process_file_single cfgW [] ctx0).result = some rSucc
    ∧ rSucc.success = true
    ∧ (ctx0.moveOk = true ∧ ∃ p, (process_file_single cfgW [] ctx0).movedTo = some p)
    ∧ toRecord rSucc ∈ (batch_add_records [] [rSucc]).1
    ∧ (toRecord rSucc ∈ ([] : List Record)
        ∨ ∃ r, r ∈ [rSucc] ∧ r.success = true ∧ toRecord rSucc = toRecord r) :=
  ⟨by decide, by decide,
    (no_record_without_successful_move cfgW [] ctx0 [] [rSucc]).1 rSucc (by decide) (by decide),
    by decide,
    (no_record_without_successful_move cfgW [] ctx0 [] [rSucc]).2 (toRecord rSucc) (by decide)⟩

/-- C5: the destination of a placed file is
output_root/year/month/day/year-month-day-fingerprint+ext; if that exact path
exists, the name is deterministically suffixed with the smallest counter
(starting at _1) whose path is free; the resolved path never collides with an
existing one, so a second file resolving the same base name gets a distinct
name; and rename_move produces exactly this path for the category's output
root. -/
theorem placement_path_and_suffix_resolution (fs : List String) (dir : String)
    (d : DateT) (md5 ext : String) :
    (pathJoin dir (baseFileName d md5 ext) ∉ fs →
      resolve_name fs dir (mkName d md5 ext) = baseFileName d md5 ext)
    ∧ (pathJoin dir (baseFileName d md5 ext) ∈ fs →
      ∃ n, 1 ≤ n ∧ resolve_name fs dir (mkName d md5 ext) = suffixedFileName d md5 n ext
        ∧ pathJoin dir (suffixedFileName d md5 n ext) ∉ fs
        ∧ ∀ k, 1 ≤ k → k < n → pathJoin dir (suffixedFileName d md5 k ext) ∈ fs)
    ∧ pathJoin dir (resolve_name fs dir (mkName d md5 ext)) ∉ fs
    ∧ resolve_name (fs ++ [pathJoin dir (resolve_name fs dir (mkName d md5 ext))]) dir
        (mkName d md5 ext) ≠ resolve_name fs dir (mkName d md5 ext)
    ∧ (∀ (cfg : Config) (c : FileCtx) (root : String),
        output_dir_for cfg c = some root → c.moveOk = true →
        rename_move cfg c d md5 =
          some (resolve_name c.fs (targetDir root d) (mkName d md5 c.ext),
            pathJoin (targetDir root d) (resolve_name c.fs (targetDir root d) (mkName d md5 c.ext)))) := by
  rcases resolve_name_spec fs dir d md5 ext with ⟨j, hfree, heq, hmin⟩
  have hnotfs : pathJoin dir (resolve_name fs dir (mkName d md5 ext)) ∉ fs := by
    rw [heq]; exact hfree
  refine ⟨?_, ?_, hnotfs, ?_, ?_⟩
  · intro hbase
    cases j with
    | zero => exact heq
    | succ n => exact absurd (hmin 0 (Nat.succ_pos n)) hbase
  · intro hbase
    cases j with
    | zero => exact absurd hbase hfree
    | succ n =>
      refine ⟨n + 1, by omega, heq, hfree, ?_⟩
      intro k hk1 hk2
      have hmem := hmin k hk2
      cases k with
      | zero => omega
      | succ k2 => exact hmem
  · rcases resolve_name_spec (fs ++ [pathJoin dir (resolve_name fs dir (mkName d md5 ext))])
        dir d md5 ext with ⟨j2, hfree2, heq2, _⟩
    rw [heq2]
    intro hc
    apply hfree2
    rw [hc]
    exact List.mem_append_right _ (List.mem_singleton.mpr rfl)
  · intro cfg c root h1 h2
    unfold rename_move
    rw [h1]
    simp [h2]

/-- Witness for C5: with the base name occupied, the resolved name is the _1
suffix. -/
theorem placement_path_and_suffix_resolution_witness :
    pathJoin "D" (baseFileName dateW "aa" ".jpg") ∈ fsW5
    ∧ (∃ n, 1 ≤ n
        ∧ resolve_name fsW5 "D" (mkName dateW "aa" ".jpg") = suffixedFileName dateW "aa" n ".jpg"
        ∧ pathJoin "D" (suffixedFileName dateW "aa" n ".jpg") ∉ fsW5
        ∧ ∀ k, 1 ≤ k → k < n → pathJoin "D" (suffixedFileName dateW "aa" k ".jpg") ∈ fsW5)
    ∧ resolve_name fsW5 "D" (mkName dateW "aa" ".jpg") = "2020-03-15-aa_1.jpg" :=
  ⟨by decide,
    (placement_path_and_suffix_resolution fsW5 "D" dateW "aa" ".jpg").2.1 (by decide),
    by decide⟩

/-- C6: when the exact-fingerprint lookup hits for a file that passed the
pre-check and the source deletion succeeds, the worker deletes the source,
bumps the duplicate counter, and performs no placement and no insert (it
returns None, so nothing joins a commit batch). -/
theorem exact_duplicate_deleted_no_placement (cfg : Config) (tbl : List Record)
    (c : FileCtx) (m : String)
    (hsize : is_valid_file_size cfg c = true)
    (htype : (c.isImage || c.isVideo) = true)
    (hmiss : check_file_exists tbl c.fileSize (fmtDate (read_date c)) = false)
    (hmd5 : c.md5Res = some m)
    (hhit : check_duplicate tbl m = true)
    (hrm : c.removeOk = true) :
    process_file_single cfg tbl c = ⟨none, 1, some CounterKind.duplicate, true, none⟩ := by
  simp [process_file_single, hsize, htype, hmiss, hmd5, hhit, hrm]

/-- Witness for C6 at a concrete duplicate file. -/
theorem exact_duplicate_deleted_no_placement_witness :
    check_duplicate tblDup "aabbcc" = true
    ∧ check_file_exists tblDup ctx0.fileSize (fmtDate (read_date ctx0)) = false
    ∧ process_file_single cfgW tblDup ctx0 = ⟨none, 1, some CounterKind.duplicate, true, none⟩ :=
  ⟨by decide, by decide,
    exact_duplicate_deleted_no_placement cfgW tblDup ctx0 "aabbcc" (by decide) (by decide)
      (by decide) (by decide) (by decide) (by decide)⟩

/-- C7 counterexample: the optimized ThreadSafeDatabase's setup swallows a
failure to open the store and construction completes normally (with only a
printed log line), contradicting the claim that construction fails fatally
before any file is touched. -/
theorem index_unavailable_counterexample :
    ThreadSafeDatabase.setup_database (Except.error "unable to open database file")
      = Except.ok ["数据库设置失败: unable to open database file"] :=
  rfl

/-- C7 amended: in the multithreaded variant an open failure propagates out of
DatabaseManager construction (fatal before any file is touched); in the
optimized variant the error is caught and logged and construction always
completes. -/
theorem index_unavailable_amended (e : String) :
    DatabaseManager.setup_database (Except.error e) = Except.error e
    ∧ ThreadSafeDatabase.setup_database (Except.error e)
        = Except.ok ["数据库设置失败: " ++ e]
    ∧ ∀ res : Except String Unit, ∃ logs, ThreadSafeDatabase.setup_database res = Except.ok logs := by
  refine ⟨rfl, rfl, ?_⟩
  intro res
  cases res with
  | ok u => exact ⟨[], rfl⟩
  | error e2 => exact ⟨["数据库设置失败: " ++ e2], rfl⟩

/-- Witness for the amended C7 at a concrete error message. -/
theorem index_unavailable_amended_witness :
    DatabaseManager.setup_database (Except.error "disk gone") = Except.error "disk gone"
    ∧ ThreadSafeDatabase.setup_database (Except.error "disk gone")
        = Except.ok ["数据库设置失败: disk gone"]
    ∧ ∀ res : Except String Unit, ∃ logs, ThreadSafeDatabase.setup_database res = Except.ok logs :=
  index_unavailable_amended "disk gone"

/-- C8: read_date is total (it returns a triple for every oracle) and degrades
through three tiers: the metadata tier consults the photo EXIF date for
photos and the encoded-date property for videos; when the metadata tier
yields nothing the modification time is used; when that is also unavailable
the current date is used. -/
theorem read_date_total_three_tiers (c : FileCtx) :
    ((is_photo c = true → metaDate c = c.photoDate)
      ∧ (is_photo c = false → c.isVideo = true → metaDate c = c.videoDate)
      ∧ (is_photo c = false → c.isVideo = false → metaDate c = none))
    ∧ (∀ d, metaDate c = some d → read_date c = d)
    ∧ (∀ d, metaDate c = none → c.mtimeDate = some d → read_date c = d)
    ∧ (metaDate c = none → c.mtimeDate = none → read_date c = c.nowDate) := by
  refine ⟨⟨?_, ?_, ?_⟩, ?_, ?_, ?_⟩
  · intro h
    simp [metaDate, h]
  · intro h1 h2
    simp [metaDate, h1, h2]
  · intro h1 h2
    simp [metaDate, h1, h2]
  · intro d h
    simp [read_date, h]
  · intro d h1 h2
    simp [read_date, h1, h2]
  · intro h1 h2
    simp [read_date, h1, h2]

/-- Witness for C8: ctx0 has no usable metadata, so its modification time is
used. -/
theorem read_date_total_three_tiers_witness :
    metaDate ctx0 = none
    ∧ ctx0.mtimeDate = some dateW
    ∧ read_date ctx0 = dateW :=
  ⟨by decide, by decide,
    (read_date_total_three_tiers ctx0).2.2.1 dateW (by decide) (by decide)⟩

/-- C9 counterexample: in the optimized variant a 500-byte file below the
1024-byte minimum is dropped during collection and, even when handed directly
to the worker, returns without touching any counter — in particular it is NOT
counted in the skipped counter, contrary to the claim. -/
theorem size_filter_counterexample :
    collect_files cfgW [ctxSmall] = []
    ∧ process_file_single cfgW [] ctxSmall = ⟨none, 0, none, false, none⟩ := by
  constructor
  · decide
  · decide

/-- C9 amended: a file below the minimum size is never fingerprinted, never
moved, and stays off the index; in the multithreaded variant its "File too
small" result is counted in the skipped counter, while in the optimized
variant it is silently dropped by collect_files (or returned as None with no
counter incremented), so it appears in no counter of the report. -/
theorem size_filter_amended (cfg : Config) (tblMT : List RecordMT)
    (tbl : List Record) (c : FileCtx)
    (h : is_valid_file_size cfg c = false) :
    process_single_file_mt cfg tblMT c = ⟨"", c.path, "", 0, "", false, some "File too small"⟩
    ∧ classify_result (process_single_file_mt cfg tblMT c) = CounterKind.skipped
    ∧ (∀ files, c ∉ collect_files cfg files)
    ∧ process_file_single cfg tbl c = ⟨none, 0, none, false, none⟩ := by
  have hmt : process_single_file_mt cfg tblMT c
      = ⟨"", c.path, "", 0, "", false, some "File too small"⟩ := by
    simp [process_single_file_mt, h]
  refine ⟨hmt, ?_, ?_, ?_⟩
  · rw [hmt]
    rfl
  · intro files hc
    rw [collect_files, List.mem_filter] at hc
    rcases hc with ⟨_, hc2⟩
    simp [h] at hc2
  · simp [process_file_single, h]

/-- Witness for the amended C9 at the concrete 500-byte file. -/
theorem size_filter_amended_witness :
    is_valid_file_size cfgW ctxSmall = false
    ∧ process_single_file_mt cfgW [] ctxSmall
        = ⟨"", ctxSmall.path, "", 0, "", false, some "File too small"⟩
    ∧ classify_result (process_single_file_mt cfgW [] ctxSmall) = CounterKind.skipped
    ∧ (∀ files, ctxSmall ∉ collect_files cfgW files)
    ∧ process_file_single cfgW [] ctxSmall = ⟨none, 0, none, false, none⟩ :=
  ⟨by decide,
    (size_filter_amended cfgW [] [] ctxSmall (by decide)).1,
    (size_filter_amended cfgW [] [] ctxSmall (by decide)).2.1,
    (size_filter_amended cfgW [] [] ctxSmall (by decide)).2.2.1,
    (size_filter_amended cfgW [] [] ctxSmall (by decide)).2.2.2⟩

/-- C10: the type filter is a raw lowercase suffix match with no dot
separator required: any filename whose lowercased form merely ends with an
allow-listed extension string is accepted by is_image and is_video over that
list. -/
theorem suffix_match_no_dot (exts : List String) (p e : String)
    (hmem : e ∈ exts) (hend : strEndsWith (strLower p) e = true) :
    is_image exts p = true ∧ is_video exts p = true :=
  ⟨List.any_eq_true.mpr ⟨e, hmem, hend⟩, List.any_eq_true.mpr ⟨e, hmem, hend⟩⟩

/-- Witness for C10: "holidayJPG" has no dot before the extension, yet is
accepted. -/
theorem suffix_match_no_dot_witness :
    "jpg" ∈ ["jpg", "png"]
    ∧ strEndsWith (strLower "holidayJPG") "jpg" = true
    ∧ is_image ["jpg", "png"] "holidayJPG" = true
    ∧ is_video ["jpg", "png"] "holidayJPG" = true :=
  ⟨by decide, by decide,
    (suffix_match_no_dot ["jpg", "png"] "holidayJPG" "jpg" (by decide) (by decide)).1,
    (suffix_match_no_dot ["jpg", "png"] "holidayJPG" "jpg" (by decide) (by decide)).2⟩

end PhotoClassifier
